import Mathlib

/-!
A shallow embedding of `pulp/repo_auth/repo_cert_utils.py`.

Python dicts over strings are modelled as association lists (`Dict`); the
filesystem is modelled as an association list from absolute filename to file
contents, where writing prepends an entry that shadows the previous one, plus
a set of filenames whose open-for-write raises (`FSState.failing`).  Functions
that can raise return `Except`; the error value carries the exception message
and, where relevant, the mutable state at the time of the raise.
-/

/-- Association list modelling a Python `dict {str: str}`. -/
abbrev Dict := List (String × String)

/-- First-match lookup in an association list (Python `d[k]` / `d.get(k)`). -/
def assocLookup : Dict → String → Option String
  | [], _ => none
  | (k, v) :: rest, key => if k = key then some v else assocLookup rest key

/-- Python `d[k] = v`: replace the entry for `k` in place, or append it. -/
def assocSet : Dict → String → String → Dict
  | [], key, val => [(key, val)]
  | (k, v) :: rest, key, val =>
      if k = key then (key, val) :: rest else (k, v) :: assocSet rest key val

/-- Writing a file: the new entry shadows any previous entry for that name. -/
def fsWrite (fs : Dict) (name contents : String) : Dict := (name, contents) :: fs

/-- `os.path.exists` over the modelled filesystem. -/
def fsExists (fs : Dict) (name : String) : Bool := (assocLookup fs name).isSome

/-- `os.path.join` for one path component. -/
def pathJoin (a b : String) : String := a ++ "/" ++ b

/-- Python `str.split(sep)` over a character list (single-character separator).
`split` always returns at least one (possibly empty) segment. -/
def splitChars (sep : Char) : List Char → List (List Char)
  | [] => [[]]
  | c :: rest =>
      let r := splitChars sep rest
      if c = sep then [] :: r
      else
        match r with
        | h :: t => (c :: h) :: t
        | [] => [[c]]

/-- Python `s.split(sep)` for a single-character separator. -/
def pySplit (s : String) (sep : Char) : List String :=
  (splitChars sep s.data).map String.mk

/-- The two string-valued settings the module reads from `pulp.server.config`. -/
structure PulpConfig where
  cert_location : String
  global_cert_location : String
deriving DecidableEq

/-- Filesystem contents plus the set of filenames whose open-for-write raises. -/
structure FSState where
  files : Dict
  failing : List String
deriving DecidableEq

/-- A Python value passed to `validate_cert_bundle`: `None`, some non-dict
value (represented by a string), or a dict. -/
inductive PyVal where
  | vNone : PyVal
  | vStr : String → PyVal
  | vDict : Dict → PyVal
deriving DecidableEq

/-- `VALID_BUNDLE_KEYS = ('ca', 'cert', 'key')` -/
def VALID_BUNDLE_KEYS : List String := ["ca", "cert", "key"]

/-- `GLOBAL_BUNDLE_PREFIX = 'pulp-global-repo'` -/
def GLOBAL_BUNDLE_PREFIX : String := "pulp-global-repo"

/-- `validate_cert_bundle(bundle)`: raises `ValueError` (modelled as
`Except.error` with the message) unless the input is a dict whose key set is
exactly `VALID_BUNDLE_KEYS`; missing keys are checked before extra keys. -/
def validate_cert_bundle : PyVal → Except String Unit
  | .vNone => .error "Bundle must be specified"
  | .vStr _ => .error "Bundle must be a dict; found [str]"
  | .vDict bundle =>
      let missing_keys := VALID_BUNDLE_KEYS.filter (fun k => decide (k ∉ bundle.map Prod.fst))
      if missing_keys.length > 0 then
        .error ("Missing items in cert bundle [" ++ String.intercalate ", " missing_keys ++ "]")
      else
        let extra_keys := (bundle.map Prod.fst).filter (fun k => decide (k ∉ VALID_BUNDLE_KEYS))
        if extra_keys.length > 0 then
          .error ("Unexpected items in cert bundle [" ++ String.intercalate ", " extra_keys ++ "]")
        else
          .ok ()

/-- `_global_cert_directory()`: the `global_cert_location` config value. -/
def _global_cert_directory (cfg : PulpConfig) : String := cfg.global_cert_location

/-- `_repo_cert_directory(repo_id)`: `os.path.join(cert_location, repo_id)`. -/
def _repo_cert_directory (cfg : PulpConfig) (repo_id : String) : String :=
  pathJoin cfg.cert_location repo_id

/-- The filename of one global-bundle part:
`os.path.join(cert_dir, GLOBAL_BUNDLE_PREFIX + "." + suffix)`. -/
def globalCertFile (cfg : PulpConfig) (suffix : String) : String :=
  pathJoin (_global_cert_directory cfg) ( GLOBAL_BUNDLE_PREFIX ++ "." ++ suffix)

/-- One iteration of the `for suffix in pieces` loop of
`read_global_cert_bundle`: include the file's contents if the file exists. -/
def readPiece (cfg : PulpConfig) (fs : Dict) (result : Dict) (suffix : String) : Dict :=
  match assocLookup fs (globalCertFile cfg suffix) with
  | some contents => assocSet result suffix contents
  | none => result

/-- `read_global_cert_bundle(pieces)`: read each requested part whose file
exists; return `None` when no requested part was found. -/
def read_global_cert_bundle (cfg : PulpConfig) (fs : Dict) (pieces : List String) :
    Option Dict :=
  let result := pieces.foldl (readPiece cfg fs) []
  if result.length = 0 then none else some result

/-- The `for key, value in bundle.items()` loop of `_write_cert_bundle`,
threading the accumulated `cert_files` dict and the filesystem state.  A
failing write raises `PulpException` with the offending filename; the files
already written stay on disk and the accumulated mapping is discarded. -/
def writeCertGo (cert_dir fpfx : String) :
    Dict → Dict → FSState → Except (String × FSState) (Dict × FSState)
  | [], cert_files, st => .ok (cert_files, st)
  | (key, value) :: rest, cert_files, st =>
      let filename := pathJoin cert_dir (fpfx ++ "." ++ key)
      if filename ∈ st.failing then
        .error ("Error storing certificate file [" ++ filename ++ "]", st)
      else
        writeCertGo cert_dir fpfx rest (assocSet cert_files key filename)
          ⟨fsWrite st.files filename value, st.failing⟩

/-- `_write_cert_bundle(file_prefix, cert_dir, bundle)`: write each bundle
part to `<cert_dir>/<file_prefix>.<part>`, returning the mapping from part
name to the absolute path written, or the first storage error. -/
def _write_cert_bundle (fpfx cert_dir : String) (bundle : Dict) (st : FSState) :
    Except (String × FSState) (Dict × FSState) :=
  writeCertGo cert_dir fpfx bundle [] st

/-- `write_feed_cert_bundle(repo_id, bundle)` -/
def write_feed_cert_bundle (cfg : PulpConfig) (repo_id : String) (bundle : Dict)
    (st : FSState) : Except (String × FSState) (Dict × FSState) :=
  _write_cert_bundle ("feed-" ++ repo_id) (_repo_cert_directory cfg repo_id) bundle st

/-- `write_consumer_cert_bundle(repo_id, bundle)` -/
def write_consumer_cert_bundle (cfg : PulpConfig) (repo_id : String) (bundle : Dict)
    (st : FSState) : Except (String × FSState) (Dict × FSState) :=
  _write_cert_bundle ("consumer-" ++ repo_id) (_repo_cert_directory cfg repo_id) bundle st

/-- `write_global_repo_cert_bundle(bundle)` -/
def write_global_repo_cert_bundle (cfg : PulpConfig) (bundle : Dict) (st : FSState) :
    Except (String × FSState) (Dict × FSState) :=
  _write_cert_bundle GLOBAL_BUNDLE_PREFIX (_global_cert_directory cfg) bundle st

/-- The external `M2Crypto.X509` collaborator, abstracted: PEM parsing,
public-key extraction and single-hop signature verification. -/
structure X509Model (Cert PubKey : Type) where
  load_cert_string : String → Except String Cert
  get_pubkey : Cert → PubKey
  verify : Cert → PubKey → Bool

/-- `X509.load_cert(filename)`: read the file, then parse its contents as a
PEM certificate. -/
def load_cert {Cert PubKey : Type} (m : X509Model Cert PubKey) (fs : Dict)
    (filename : String) : Except String Cert :=
  match assocLookup fs filename with
  | none => .error ("IOError: could not open file " ++ filename)
  | some pem => m.load_cert_string pem

/-- `validate_certificate(cert_filename, ca_filename)` -/
def validate_certificate {Cert PubKey : Type} (m : X509Model Cert PubKey) (fs : Dict)
    (cert_filename ca_filename : String) : Except String Bool := do
  let ca ← load_cert m fs ca_filename
  let cert ← load_cert m fs cert_filename
  return m.verify cert (m.get_pubkey ca)

/-- `validate_certificate_pem(cert_pem, ca_pem)` -/
def validate_certificate_pem {Cert PubKey : Type} (m : X509Model Cert PubKey)
    (cert_pem ca_pem : String) : Except String Bool := do
  let ca ← m.load_cert_string ca_pem
  let cert ← m.load_cert_string cert_pem
  return m.verify cert (m.get_pubkey ca)

/-- `ProtectedRepoListingFile`: a backing filename and the in-memory
`listings` map from relative path to repo id. -/
structure ProtectedRepoListingFile where
  filename : String
  listings : Dict
deriving DecidableEq

namespace ProtectedRepoListingFile

/-- The parsing loop of `load`: for each line, `pieces = line.split(',')`;
`self.listings[pieces[0]] = pieces[1]` raises `IndexError` when the line has
no comma.  The state mutated before the raise is kept in the error value. -/
def loadLines : ProtectedRepoListingFile → List String →
    Except (String × ProtectedRepoListingFile) ProtectedRepoListingFile
  | self, [] => .ok self
  | self, line :: rest =>
      match pySplit line ',' with
      | p0 :: p1 :: _ =>
          loadLines ⟨self.filename, assocSet self.listings p0 p1⟩ rest
      | _ => .error ("IndexError: list index out of range", self)

/-- `load(allow_missing=True)`: return silently when the file is absent and
`allow_missing` holds; otherwise read the file and parse each
newline-separated record. -/
def load (self : ProtectedRepoListingFile) (fs : Dict) (allow_missing : Bool) :
    Except (String × ProtectedRepoListingFile) ProtectedRepoListingFile :=
  if allow_missing && !(fsExists fs self.filename) then
    .ok self
  else
    match assocLookup fs self.filename with
    | none => .error ("IOError: could not open file " ++ self.filename, self)
    | some contents => loadLines self (pySplit contents '\n')

/-- `save()`: open the backing file for write (truncating it) and emit
`'%s,%s' % (url, self.listings[url])` for each entry — note: no separator
between successive records. -/
def save (self : ProtectedRepoListingFile) (fs : Dict) : Dict :=
  fsWrite fs self.filename
    (String.join (self.listings.map (fun p => p.1 ++ "," ++ p.2)))

/-- `add_protected_repo_path(relative_path_url, repo_id)` -/
def add_protected_repo_path (self : ProtectedRepoListingFile)
    (relative_path_url repo_id : String) : ProtectedRepoListingFile :=
  ⟨self.filename, assocSet self.listings relative_path_url repo_id⟩

/-- `remove_protected_repo_path(relative_path_url)`: `dict.pop(key, None)`. -/
def remove_protected_repo_path (self : ProtectedRepoListingFile)
    (relative_path_url : String) : ProtectedRepoListingFile :=
  ⟨self.filename, self.listings.filter (fun p => decide (p.1 ≠ relative_path_url))⟩

end ProtectedRepoListingFile

/-- Spec-side description of the files on disk after a sequence of writes:
fold the per-part writes (part name sent through `nm`) over the filesystem. -/
def writeFiles (nm : String → String) (b : Dict) (files : Dict) : Dict :=
  b.foldl (fun fs kv => (nm kv.1, kv.2) :: fs) files

/-- A line of the protected-repo listing file that parses without an
`IndexError`: `line.split(',')` has at least two fields. -/
def goodLine (line : String) : Bool := decide (2 ≤ (pySplit line ',').length)

/-- The record a well-formed listing line adds to the in-memory map. -/
def addRecord (m : Dict) (line : String) : Dict :=
  assocSet m ((pySplit line ',').headD "") ((pySplit line ',').getD 1 "")

/-- A trivial concrete instance of the abstract X509 collaborator, used to
instantiate universally quantified statements about the two verifiers. -/
def x509demo : X509Model String String :=
  ⟨fun s => .ok s, fun c => c, fun c p => c == p⟩

/-! ## Helper lemmas -/

theorem string_append_cancel_left {s t u : String} (h : s ++ t = s ++ u) : t = u := by
  have hd := congrArg String.data h
  simp only [String.data_append] at hd
  exact String.ext (List.append_cancel_left hd)

theorem pathSuffix_inj (d p : String) {k1 k2 : String}
    (h : pathJoin d (p ++ "." ++ k1) = pathJoin d (p ++ "." ++ k2)) : k1 = k2 := by
  unfold pathJoin at h
  exact string_append_cancel_left (string_append_cancel_left h)

theorem assocLookup_isSome_of_mem {m : Dict} {k : String} (h : k ∈ m.map Prod.fst) :
    (assocLookup m k).isSome = true := by
  induction m with
  | nil => simp at h
  | cons p rest ih =>
      simp only [List.map_cons, List.mem_cons] at h
      by_cases hpk : p.1 = k
      · simp [assocLookup, hpk]
      · rcases h with h | h
        · exact absurd h.symm hpk
        · simpa [assocLookup, hpk] using ih h

theorem assocLookup_mem_of_some {m : Dict} {k v : String} (h : assocLookup m k = some v) :
    k ∈ m.map Prod.fst := by
  induction m with
  | nil => simp [assocLookup] at h
  | cons p rest ih =>
      by_cases hpk : p.1 = k
      · simp [hpk]
      · simp only [assocLookup, if_neg hpk] at h
        simp [ih h]

theorem mem_assocSet_elim {m : Dict} {k v : String} {pc : String × String}
    (h : pc ∈ assocSet m k v) : pc = (k, v) ∨ pc ∈ m := by
  induction m with
  | nil => simpa [assocSet] using h
  | cons p rest ih =>
      by_cases hpk : p.1 = k
      · simp only [assocSet, if_pos hpk, List.mem_cons] at h
        rcases h with h | h
        · exact Or.inl h
        · exact Or.inr (List.mem_cons_of_mem _ h)
      · simp only [assocSet, if_neg hpk, List.mem_cons] at h
        rcases h with h | h
        · exact Or.inr (h ▸ List.mem_cons_self _ _)
        · rcases ih h with h' | h'
          · exact Or.inl h'
          · exact Or.inr (List.mem_cons_of_mem _ h')

theorem mem_assocSet_self (m : Dict) (k v : String) : (k, v) ∈ assocSet m k v := by
  induction m with
  | nil => simp [assocSet]
  | cons p rest ih =>
      by_cases hpk : p.1 = k
      · simp [assocSet, if_pos hpk]
      · simp only [assocSet, if_neg hpk, List.mem_cons]
        exact Or.inr ih

theorem mem_assocSet_of_ne {m : Dict} {pc : String × String} {k v : String}
    (hne : pc.1 ≠ k) (h : pc ∈ m) : pc ∈ assocSet m k v := by
  induction m with
  | nil => simp at h
  | cons p rest ih =>
      rcases List.mem_cons.mp h with h | h
      · by_cases hpk : p.1 = k
        · exact absurd (h ▸ hpk) hne
        · simp [assocSet, if_neg hpk, h]
      · by_cases hpk : p.1 = k
        · simp only [assocSet, if_pos hpk, List.mem_cons]
          exact Or.inr h
        · simp only [assocSet, if_neg hpk, List.mem_cons]
          exact Or.inr (ih h)

theorem assocSet_ne_nil (m : Dict) (k v : String) : assocSet m k v ≠ [] := by
  cases m with
  | nil => simp [assocSet]
  | cons p rest =>
      by_cases hpk : p.1 = k
      · simp [assocSet, if_pos hpk]
      · simp [assocSet, if_neg hpk]

theorem assocSet_append {m : Dict} {k : String} (v : String) (h : k ∉ m.map Prod.fst) :
    assocSet m k v = m ++ [(k, v)] := by
  induction m with
  | nil => rfl
  | cons p rest ih =>
      obtain ⟨a, b⟩ := p
      simp only [List.map_cons, List.mem_cons, not_or] at h
      simp only [assocSet, if_neg (Ne.symm h.1), List.cons_append]
      rw [ih h.2]

theorem writeFiles_lookup_skip (nm : String → String) (b : Dict) :
    ∀ (files : Dict) (n : String), (∀ k ∈ b.map Prod.fst, nm k ≠ n) →
      assocLookup (writeFiles nm b files) n = assocLookup files n := by
  induction b with
  | nil => intro files n _; rfl
  | cons kv rest ih =>
      intro files n h
      show assocLookup (writeFiles nm rest ((nm kv.1, kv.2) :: files)) n = _
      rw [ih _ _ (fun k hk => h k (by simp [hk]))]
      simp [assocLookup, h kv.1 (by simp)]

theorem writeFiles_lookup (nm : String → String)
    (hinj : ∀ k1 k2, nm k1 = nm k2 → k1 = k2) (b : Dict) :
    ∀ (files : Dict) (k : String), (b.map Prod.fst).Nodup → k ∈ b.map Prod.fst →
      assocLookup (writeFiles nm b files) (nm k) = assocLookup b k := by
  induction b with
  | nil => intro files k _ hk; simp at hk
  | cons kv rest ih =>
      intro files k hnd hk
      obtain ⟨a, b0⟩ := kv
      simp only [List.map_cons, List.nodup_cons] at hnd
      simp only [List.map_cons, List.mem_cons] at hk
      show assocLookup (writeFiles nm rest ((nm a, b0) :: files)) (nm k)
        = assocLookup ((a, b0) :: rest) k
      by_cases hkk : k = a
      · have hskip : ∀ k2 ∈ rest.map Prod.fst, nm k2 ≠ nm k := by
          intro k2 hk2 heq
          have hmem : k ∈ rest.map Prod.fst := hinj k2 k heq ▸ hk2
          exact hnd.1 (hkk ▸ hmem)
        rw [writeFiles_lookup_skip nm rest _ _ hskip, hkk]
        simp [assocLookup]
      · rcases hk with h | h
        · exact absurd h hkk
        · rw [ih _ _ hnd.2 h]
          simp only [assocLookup]
          rw [if_neg (fun hh => hkk hh.symm)]

theorem writeCertGo_ok (cert_dir fpfx : String) (b : Dict) :
    ∀ (cf files : Dict) (failing : List String),
      (∀ kv ∈ b, pathJoin cert_dir (fpfx ++ "." ++ kv.1) ∉ failing) →
      writeCertGo cert_dir fpfx b cf ⟨files, failing⟩
        = .ok (b.foldl (fun c kv => assocSet c kv.1 (pathJoin cert_dir (fpfx ++ "." ++ kv.1))) cf,
            ⟨writeFiles (fun key => pathJoin cert_dir (fpfx ++ "." ++ key)) b files, failing⟩) := by
  induction b with
  | nil => intro cf files failing _; rfl
  | cons kv rest ih =>
      intro cf files failing h
      obtain ⟨key, value⟩ := kv
      show (if pathJoin cert_dir (fpfx ++ "." ++ key) ∈ failing then _ else _) = _
      rw [if_neg (h (key, value) (List.mem_cons_self _ _))]
      exact ih _ _ _ (fun kv' h' => h kv' (List.mem_cons_of_mem _ h'))

theorem writeCertGo_error (cert_dir fpfx k v : String) (post : Dict) (pre : Dict) :
    ∀ (cf : Dict) (st : FSState),
      (∀ kv ∈ pre, pathJoin cert_dir (fpfx ++ "." ++ kv.1) ∉ st.failing) →
      pathJoin cert_dir (fpfx ++ "." ++ k) ∈ st.failing →
      writeCertGo cert_dir fpfx (pre ++ (k, v) :: post) cf st
        = .error ("Error storing certificate file ["
              ++ pathJoin cert_dir (fpfx ++ "." ++ k) ++ "]",
            ⟨writeFiles (fun key => pathJoin cert_dir (fpfx ++ "." ++ key)) pre st.files,
             st.failing⟩) := by
  induction pre with
  | nil =>
      intro cf st _ hk
      show (if pathJoin cert_dir (fpfx ++ "." ++ k) ∈ st.failing then _ else _) = _
      rw [if_pos hk]
      rfl
  | cons kv rest ih =>
      intro cf st hpre hk
      obtain ⟨key, value⟩ := kv
      show (if pathJoin cert_dir (fpfx ++ "." ++ key) ∈ st.failing then _ else _) = _
      rw [if_neg (hpre (key, value) (List.mem_cons_self _ _))]
      exact ih _ _ (fun kv' h' => hpre kv' (List.mem_cons_of_mem _ h')) hk

theorem foldl_assocSet_eq_map (f : String → String) (b : Dict) :
    ∀ (acc : Dict), (b.map Prod.fst).Nodup →
      (∀ k ∈ b.map Prod.fst, k ∉ acc.map Prod.fst) →
      b.foldl (fun c kv => assocSet c kv.1 (f kv.1)) acc
        = acc ++ b.map (fun kv => (kv.1, f kv.1)) := by
  induction b with
  | nil => intro acc _ _; simp
  | cons kv rest ih =>
      intro acc hnd hfresh
      simp only [List.map_cons, List.nodup_cons] at hnd
      show rest.foldl _ (assocSet acc kv.1 (f kv.1)) = _
      rw [assocSet_append (f kv.1) (hfresh kv.1 (by simp))]
      rw [ih _ hnd.2 ?fresh]
      · simp
      case fresh =>
        intro k hkr
        simp only [List.map_append, List.mem_append, List.map_cons]
        rintro (h | h)
        · exact hfresh k (by simp [hkr]) h
        · simp only [List.map_nil, List.mem_cons, List.not_mem_nil, or_false] at h
          exact hnd.1 (h ▸ hkr)

theorem readFold_const (cfg : PulpConfig) (fs : Dict) (pieces : List String) :
    ∀ acc, (∀ p ∈ pieces, assocLookup fs (globalCertFile cfg p) = none) →
      pieces.foldl (readPiece cfg fs) acc = acc := by
  induction pieces with
  | nil => intro acc _; rfl
  | cons p0 rest ih =>
      intro acc h
      show rest.foldl (readPiece cfg fs) (readPiece cfg fs acc p0) = acc
      rw [show readPiece cfg fs acc p0 = acc by
        simp [readPiece, h p0 (List.mem_cons_self _ _)]]
      exact ih _ (fun p hp => h p (List.mem_cons_of_mem _ hp))

theorem readFold_mem (cfg : PulpConfig) (fs : Dict) (pieces : List String) :
    ∀ acc pc, pc ∈ pieces.foldl (readPiece cfg fs) acc →
      pc ∈ acc ∨ (pc.1 ∈ pieces ∧ assocLookup fs (globalCertFile cfg pc.1) = some pc.2) := by
  induction pieces with
  | nil => intro acc pc h; exact Or.inl h
  | cons p0 rest ih =>
      intro acc pc h
      rcases ih (readPiece cfg fs acc p0) pc h with h' | h'
      · rcases h0 : assocLookup fs (globalCertFile cfg p0) with _ | c0
        · rw [readPiece, h0] at h'
          exact Or.inl h'
        · rw [readPiece, h0] at h'
          rcases mem_assocSet_elim h' with h'' | h''
          · refine Or.inr ⟨by simp [h''], ?_⟩
            rw [show pc.1 = p0 by simp [h'']]
            simpa [h''] using h0
          · exact Or.inl h''
      · exact Or.inr ⟨List.mem_cons_of_mem _ h'.1, h'.2⟩

theorem readFold_found (cfg : PulpConfig) (fs : Dict) (pieces : List String) :
    ∀ acc, (∀ q d, (q, d) ∈ acc → assocLookup fs (globalCertFile cfg q) = some d) →
      ∀ p c, assocLookup fs (globalCertFile cfg p) = some c →
        (p ∈ pieces ∨ (p, c) ∈ acc) →
        (p, c) ∈ pieces.foldl (readPiece cfg fs) acc := by
  induction pieces with
  | nil =>
      intro acc _ p c _ hin
      rcases hin with hin | hin
      · simp at hin
      · exact hin
  | cons p0 rest ih =>
      intro acc hacc p c hp hin
      show (p, c) ∈ rest.foldl (readPiece cfg fs) (readPiece cfg fs acc p0)
      have hacc' : ∀ q d, (q, d) ∈ readPiece cfg fs acc p0 →
          assocLookup fs (globalCertFile cfg q) = some d := by
        intro q d hqd
        rcases h0 : assocLookup fs (globalCertFile cfg p0) with _ | c0
        · rw [readPiece, h0] at hqd
          exact hacc q d hqd
        · rw [readPiece, h0] at hqd
          rcases mem_assocSet_elim hqd with h' | h'
          · rw [show q = p0 by simpa using congrArg Prod.fst h',
                show d = c0 by simpa using congrArg Prod.snd h']
            exact h0
          · exact hacc q d h'
      rcases hin with hin | hin
      · rcases List.mem_cons.mp hin with hin' | hin'
        · refine ih _ hacc' p c hp (Or.inr ?_)
          subst hin'
          rcases h0 : assocLookup fs (globalCertFile cfg p) with _ | c0
          · rw [h0] at hp; cases hp
          · rw [h0] at hp
            rw [readPiece, h0, show c0 = c from by simpa using hp]
            exact mem_assocSet_self _ _ _
        · exact ih _ hacc' p c hp (Or.inl hin')
      · refine ih _ hacc' p c hp (Or.inr ?_)
        rcases h0 : assocLookup fs (globalCertFile cfg p0) with _ | c0
        · rw [readPiece, h0]; exact hin
        · rw [readPiece, h0]
          by_cases hpp : p = p0
          · have : c = c0 := by
              rw [← hpp] at h0
              rw [h0] at hp
              simpa using hp.symm
            rw [hpp, this]
            exact mem_assocSet_self _ _ _
          · exact mem_assocSet_of_ne (by simpa using hpp) hin

theorem loadLines_error (lines : List String) :
    ∀ (self : ProtectedRepoListingFile),
      (∃ line ∈ lines, goodLine line = false) →
      ProtectedRepoListingFile.loadLines self lines
        = .error ("IndexError: list index out of range",
            ⟨self.filename, (lines.takeWhile goodLine).foldl addRecord self.listings⟩) := by
  induction lines with
  | nil => intro self h; simp at h
  | cons line rest ih =>
      intro self h
      rcases hsplit : pySplit line ',' with _ | ⟨p0, _ | ⟨p1, ps⟩⟩
      · have hbad : goodLine line = false := by simp [goodLine, hsplit]
        rw [show ProtectedRepoListingFile.loadLines self (line :: rest)
              = .error ("IndexError: list index out of range", self) from by
            simp [ProtectedRepoListingFile.loadLines, hsplit]]
        rw [List.takeWhile_cons_of_neg (by simp [hbad])]
        rfl
      · have hbad : goodLine line = false := by simp [goodLine, hsplit]
        rw [show ProtectedRepoListingFile.loadLines self (line :: rest)
              = .error ("IndexError: list index out of range", self) from by
            simp [ProtectedRepoListingFile.loadLines, hsplit]]
        rw [List.takeWhile_cons_of_neg (by simp [hbad])]
        rfl
      · have hgood : goodLine line = true := by simp [goodLine, hsplit]
        have hbad' : ∃ l ∈ rest, goodLine l = false := by
          rcases h with ⟨l, hl, hb⟩
          rcases List.mem_cons.mp hl with hl' | hl'
          · rw [hl', hgood] at hb; cases hb
          · exact ⟨l, hl', hb⟩
        rw [show ProtectedRepoListingFile.loadLines self (line :: rest)
              = ProtectedRepoListingFile.loadLines
                  ⟨self.filename, assocSet self.listings p0 p1⟩ rest from by
            simp [ProtectedRepoListingFile.loadLines, hsplit]]
        rw [ih _ hbad']
        rw [List.takeWhile_cons_of_pos (by simp [hgood])]
        rw [List.foldl_cons]
        rw [show addRecord self.listings line = assocSet self.listings p0 p1 from by
          simp [addRecord, hsplit]]

/-! ## Claim theorems -/

/-- C2 counterexample: with the bundle `{ca: A, cert: B, key: C}` and a
filesystem on which writing the `cert` file fails, the global bundle write
ends in a raised `PulpException` — the mapping of the parts written before
the failure (here `ca`) is NOT returned to the caller, contrary to the
claim's reading of step 5 of the write protocol. -/
theorem c2_no_mapping_on_failure_counterexample :
    write_global_repo_cert_bundle ⟨"/certs", "/gcerts"⟩
        [("ca", "A"), ("cert", "B"), ("key", "C")]
        ⟨[], ["/gcerts/pulp-global-repo.cert"]⟩
      = .error ("Error storing certificate file [/gcerts/pulp-global-repo.cert]",
          ⟨[("/gcerts/pulp-global-repo.ca", "A")],
           ["/gcerts/pulp-global-repo.cert"]⟩) := by
  rfl

/-- C2 (amended): if writing some part's file fails, the write aborts at that
part (parts after it are not attempted), the raised storage error names the
offending file, and the files written earlier in the same call are left on
disk (no rollback); but the call raises — no partial part-to-path mapping is
returned to the caller. -/
theorem c2_write_failure_behavior (fpfx cert_dir k v : String)
    (pre post : Dict) (st : FSState)
    (hpre : ∀ kv ∈ pre, pathJoin cert_dir (fpfx ++ "." ++ kv.1) ∉ st.failing)
    (hk : pathJoin cert_dir (fpfx ++ "." ++ k) ∈ st.failing) :
    _write_cert_bundle fpfx cert_dir (pre ++ (k, v) :: post) st
      = .error ("Error storing certificate file ["
            ++ pathJoin cert_dir (fpfx ++ "." ++ k) ++ "]",
          ⟨writeFiles (fun key => pathJoin cert_dir (fpfx ++ "." ++ key)) pre st.files,
           st.failing⟩) :=
  writeCertGo_error cert_dir fpfx k v post pre [] st hpre hk

/-- C2 witness: the amended failure behavior at a concrete input. -/
theorem c2_write_failure_behavior_witness :
    _write_cert_bundle "pulp-global-repo" "/gcerts"
        ([("ca", "A")] ++ ("cert", "B") :: [("key", "C")])
        ⟨[], ["/gcerts/pulp-global-repo.cert"]⟩
      = .error ("Error storing certificate file ["
            ++ pathJoin "/gcerts" ("pulp-global-repo" ++ "." ++ "cert") ++ "]",
          ⟨writeFiles (fun key => pathJoin "/gcerts" ("pulp-global-repo" ++ "." ++ key))
             [("ca", "A")] [],
           ["/gcerts/pulp-global-repo.cert"]⟩) :=
  c2_write_failure_behavior "pulp-global-repo" "/gcerts" "cert" "B"
    [("ca", "A")] [("key", "C")] ⟨[], ["/gcerts/pulp-global-repo.cert"]⟩
    (by decide) (by decide)

/-- C5 counterexample: for the bundle `{ca: x, extra: w}` — which has both
missing keys (`cert`, `key`) and an extra key (`extra`) — the single error
raised enumerates only the missing keys; the extra key `extra` is not
mentioned anywhere in the message, so the two violation sets are not
reported in one shot. -/
theorem c5_counterexample :
    validate_cert_bundle (.vDict [("ca", "x"), ("extra", "w")])
      = .error "Missing items in cert bundle [cert, key]"
    ∧ ¬ List.IsInfix "extra".data "Missing items in cert bundle [cert, key]".data := by
  constructor
  · rfl
  · decide

/-- C5 (amended): when any required key is missing, the error enumerates all
missing keys but reports no extra keys; all extra keys are enumerated in one
error only when no required key is missing. -/
theorem c5_error_enumeration (bundle : Dict) :
    ((VALID_BUNDLE_KEYS.filter (fun k => decide (k ∉ bundle.map Prod.fst))) ≠ [] →
       validate_cert_bundle (.vDict bundle)
         = .error ("Missing items in cert bundle ["
             ++ String.intercalate ", "
                  (VALID_BUNDLE_KEYS.filter (fun k => decide (k ∉ bundle.map Prod.fst)))
             ++ "]"))
    ∧ ((VALID_BUNDLE_KEYS.filter (fun k => decide (k ∉ bundle.map Prod.fst))) = [] →
       ((bundle.map Prod.fst).filter (fun k => decide (k ∉ VALID_BUNDLE_KEYS))) ≠ [] →
       validate_cert_bundle (.vDict bundle)
         = .error ("Unexpected items in cert bundle ["
             ++ String.intercalate ", "
                  ((bundle.map Prod.fst).filter (fun k => decide (k ∉ VALID_BUNDLE_KEYS)))
             ++ "]")) := by
  constructor
  · intro h
    simp only [validate_cert_bundle]
    rw [if_pos (List.length_pos.mpr h)]
  · intro hm hx
    simp only [validate_cert_bundle]
    rw [if_neg (by rw [hm]; simp), if_pos (List.length_pos.mpr hx)]

/-- C5 witness: the missing-key arm of the amended claim at a concrete
bundle with both missing and extra keys. -/
theorem c5_error_enumeration_witness :
    validate_cert_bundle (.vDict [("ca", "x"), ("extra", "w")])
      = .error ("Missing items in cert bundle ["
          ++ String.intercalate ", "
               (VALID_BUNDLE_KEYS.filter
                 (fun k => decide (k ∉ ([("ca", "x"), ("extra", "w")] : Dict).map Prod.fst)))
          ++ "]") :=
  (c5_error_enumeration [("ca", "x"), ("extra", "w")]).1 (by decide)

/-- C6 (code bug evidence): saving a two-entry listing writes the records
with no separator between them — `"/a,r1/b,r2"`, not two newline-separated
lines — and a subsequent `load` of that very file mis-parses it into the
single corrupted entry `{"/a": "r1/b"}`. -/
theorem c6_save_no_newline :
    ProtectedRepoListingFile.save ⟨"/f", [("/a", "r1"), ("/b", "r2")]⟩ []
      = [("/f", "/a,r1/b,r2")]
    ∧ ProtectedRepoListingFile.load ⟨"/f", []⟩
        (ProtectedRepoListingFile.save ⟨"/f", [("/a", "r1"), ("/b", "r2")]⟩ []) true
      = .ok ⟨"/f", [("/a", "r1/b")]⟩ := by
  constructor
  · rfl
  · rfl

/-- C8: when the file at `cert_filename` holds `cert_pem` and the file at
`ca_filename` holds `ca_pem`, the file-path verifier and the PEM-string
verifier return the same result: both parse the two certificates, extract
the CA's public key and verify the subject certificate's signature with it. -/
theorem c8_validate_certificate_equiv {Cert PubKey : Type}
    (m : X509Model Cert PubKey) (fs : Dict)
    (cert_filename ca_filename cert_pem ca_pem : String)
    (hcert : assocLookup fs cert_filename = some cert_pem)
    (hca : assocLookup fs ca_filename = some ca_pem) :
    validate_certificate m fs cert_filename ca_filename
      = validate_certificate_pem m cert_pem ca_pem := by
  simp [validate_certificate, validate_certificate_pem, load_cert, hcert, hca]

/-- C8 witness: the equivalence at a concrete model and filesystem. -/
theorem c8_validate_certificate_equiv_witness :
    validate_certificate x509demo [("/ca.pem", "CAPEM"), ("/cert.pem", "CERTPEM")]
        "/cert.pem" "/ca.pem"
      = validate_certificate_pem x509demo "CERTPEM" "CAPEM" :=
  c8_validate_certificate_equiv x509demo [("/ca.pem", "CAPEM"), ("/cert.pem", "CERTPEM")]
    "/cert.pem" "/ca.pem" "CERTPEM" "CAPEM" (by decide) (by decide)

/-- C9: `_write_cert_bundle` performs no validation of the bundle: for any
dict whatsoever (missing or extra parts included), every write succeeding, it
writes one file `<cert_dir>/<file_prefix>.<k>` for each key `k` of the dict
and returns the part-to-path mapping for exactly those keys. -/
theorem c9_write_does_not_validate (fpfx cert_dir : String) (b : Dict) (st : FSState)
    (hnd : (b.map Prod.fst).Nodup) (hfail : st.failing = []) :
    ∃ st2,
      _write_cert_bundle fpfx cert_dir b st
        = .ok (b.map (fun kv => (kv.1, pathJoin cert_dir (fpfx ++ "." ++ kv.1))), st2)
      ∧ ∀ kv ∈ b, fsExists st2.files (pathJoin cert_dir (fpfx ++ "." ++ kv.1)) = true := by
  obtain ⟨files, failing⟩ := st
  obtain rfl : failing = [] := hfail
  refine ⟨⟨writeFiles (fun key => pathJoin cert_dir (fpfx ++ "." ++ key)) b files, []⟩,
    ?_, ?_⟩
  · rw [_write_cert_bundle, writeCertGo_ok cert_dir fpfx b [] files [] (by simp)]
    rw [foldl_assocSet_eq_map (fun key => pathJoin cert_dir (fpfx ++ "." ++ key))
          b [] hnd (by simp)]
    simp
  · intro kv hkv
    have hinj : ∀ k1 k2, pathJoin cert_dir (fpfx ++ "." ++ k1)
        = pathJoin cert_dir (fpfx ++ "." ++ k2) → k1 = k2 :=
      fun k1 k2 h => pathSuffix_inj cert_dir fpfx h
    show (assocLookup
        (writeFiles (fun key => pathJoin cert_dir (fpfx ++ "." ++ key)) b files)
        (pathJoin cert_dir (fpfx ++ "." ++ kv.1))).isSome = true
    rw [writeFiles_lookup (fun key => pathJoin cert_dir (fpfx ++ "." ++ key))
          hinj b files kv.1 hnd (List.mem_map_of_mem Prod.fst hkv)]
    exact assocLookup_isSome_of_mem (List.mem_map_of_mem Prod.fst hkv)

/-- C9 witness: writing a bundle with a missing part (`key`) and an extra
part (`bogus`) succeeds and returns paths for exactly those keys. -/
theorem c9_write_does_not_validate_witness :
    ∃ st2,
      _write_cert_bundle "feed-r1" "/certs/r1" [("ca", "A"), ("bogus", "Z")] ⟨[], []⟩
        = .ok (([("ca", "A"), ("bogus", "Z")] : Dict).map
            (fun kv => (kv.1, pathJoin "/certs/r1" ("feed-r1" ++ "." ++ kv.1))), st2)
      ∧ ∀ kv ∈ ([("ca", "A"), ("bogus", "Z")] : Dict),
          fsExists st2.files (pathJoin "/certs/r1" ("feed-r1" ++ "." ++ kv.1)) = true :=
  c9_write_does_not_validate "feed-r1" "/certs/r1" [("ca", "A"), ("bogus", "Z")]
    ⟨[], []⟩ (by decide) (by decide)

/-- C1: writing a bundle whose key set is exactly `{ca, cert, key}` as the
global bundle and reading it back yields byte-identical PEM content for each
part, and requesting only the subset `["ca"]` returns a mapping holding
exactly the `ca` part's content. -/
theorem c1_global_bundle_round_trip (cfg : PulpConfig) (b : Dict) (st : FSState)
    (vca vcert vkey : String)
    (hfail : st.failing = [])
    (hnd : (b.map Prod.fst).Nodup)
    (hsub : ∀ k ∈ b.map Prod.fst, k ∈ VALID_BUNDLE_KEYS)
    (hca : assocLookup b "ca" = some vca)
    (hcert : assocLookup b "cert" = some vcert)
    (hkey : assocLookup b "key" = some vkey) :
    ∃ paths st2,
      write_global_repo_cert_bundle cfg b st = .ok (paths, st2)
      ∧ read_global_cert_bundle cfg st2.files VALID_BUNDLE_KEYS
          = some [("ca", vca), ("cert", vcert), ("key", vkey)]
      ∧ read_global_cert_bundle cfg st2.files ["ca"] = some [("ca", vca)] := by
  obtain ⟨files, failing⟩ := st
  obtain rfl : failing = [] := hfail
  have hinj : ∀ k1 k2,
      pathJoin (_global_cert_directory cfg) ( GLOBAL_BUNDLE_PREFIX ++ "." ++ k1)
        = pathJoin (_global_cert_directory cfg) ( GLOBAL_BUNDLE_PREFIX ++ "." ++ k2) →
      k1 = k2 := fun k1 k2 h => pathSuffix_inj _ _ h
  have hL : ∀ (k vk : String), assocLookup b k = some vk →
      assocLookup
        (writeFiles (fun key => pathJoin (_global_cert_directory cfg)
          ( GLOBAL_BUNDLE_PREFIX ++ "." ++ key)) b files)
        (pathJoin (_global_cert_directory cfg) ( GLOBAL_BUNDLE_PREFIX ++ "." ++ k))
        = some vk := by
    intro k vk hk
    have hlk := writeFiles_lookup (fun key => pathJoin (_global_cert_directory cfg)
        ( GLOBAL_BUNDLE_PREFIX ++ "." ++ key)) hinj b files k hnd
        (assocLookup_mem_of_some hk)
    rw [hk] at hlk
    exact hlk
  refine ⟨b.foldl (fun c kv => assocSet c kv.1 (pathJoin (_global_cert_directory cfg)
      ( GLOBAL_BUNDLE_PREFIX ++ "." ++ kv.1))) [],
    ⟨writeFiles (fun key => pathJoin (_global_cert_directory cfg)
      ( GLOBAL_BUNDLE_PREFIX ++ "." ++ key)) b files, []⟩, ?_, ?_, ?_⟩
  · rw [write_global_repo_cert_bundle, _write_cert_bundle,
        writeCertGo_ok (_global_cert_directory cfg) GLOBAL_BUNDLE_PREFIX b [] files []
          (by simp)]
  · simp only [read_global_cert_bundle, VALID_BUNDLE_KEYS, List.foldl_cons,
      List.foldl_nil, readPiece, globalCertFile]
    rw [hL "ca" vca hca, hL "cert" vcert hcert, hL "key" vkey hkey]
    simp [assocSet]
  · simp only [read_global_cert_bundle, List.foldl_cons, List.foldl_nil,
      readPiece, globalCertFile]
    rw [hL "ca" vca hca]
    simp [assocSet]

/-- C1 witness: the round trip at a concrete bundle and empty filesystem. -/
theorem c1_global_bundle_round_trip_witness :
    ∃ paths st2,
      write_global_repo_cert_bundle ⟨"/certs", "/gcerts"⟩
          [("ca", "CA_PEM"), ("cert", "CERT_PEM"), ("key", "KEY_PEM")] ⟨[], []⟩
        = .ok (paths, st2)
      ∧ read_global_cert_bundle ⟨"/certs", "/gcerts"⟩ st2.files VALID_BUNDLE_KEYS
          = some [("ca", "CA_PEM"), ("cert", "CERT_PEM"), ("key", "KEY_PEM")]
      ∧ read_global_cert_bundle ⟨"/certs", "/gcerts"⟩ st2.files ["ca"]
          = some [("ca", "CA_PEM")] :=
  c1_global_bundle_round_trip ⟨"/certs", "/gcerts"⟩
    [("ca", "CA_PEM"), ("cert", "CERT_PEM"), ("key", "KEY_PEM")] ⟨[], []⟩
    "CA_PEM" "CERT_PEM" "KEY_PEM" rfl (by decide) (by decide) rfl rfl rfl

/-- C3: `read_global_cert_bundle` silently omits every requested part whose
backing file does not exist; it returns the `None` sentinel exactly when no
requested part was found, and a returned mapping is never empty and holds
precisely the requested parts whose file exists, with that file's content. -/
theorem c3_read_omits_missing (cfg : PulpConfig) (fs : Dict) (pieces : List String) :
    (read_global_cert_bundle cfg fs pieces = none
       ↔ ∀ p ∈ pieces, assocLookup fs (globalCertFile cfg p) = none)
    ∧ (∀ result, read_global_cert_bundle cfg fs pieces = some result →
        result ≠ []
        ∧ (∀ p c, (p, c) ∈ result →
            p ∈ pieces ∧ assocLookup fs (globalCertFile cfg p) = some c)
        ∧ (∀ p ∈ pieces, ∀ c, assocLookup fs (globalCertFile cfg p) = some c →
            (p, c) ∈ result)) := by
  constructor
  · constructor
    · intro hnone p hp
      rcases hopt : assocLookup fs (globalCertFile cfg p) with _ | c
      · rfl
      · exfalso
        have hmem := readFold_found cfg fs pieces [] (by simp) p c hopt (Or.inl hp)
        rw [read_global_cert_bundle] at hnone
        rw [if_neg (fun h0 => by
          rw [List.length_eq_zero] at h0
          rw [h0] at hmem
          simp at hmem)] at hnone
        cases hnone
    · intro hall
      rw [read_global_cert_bundle, readFold_const cfg fs pieces [] hall]
      rfl
  · intro result hres
    rw [read_global_cert_bundle] at hres
    by_cases hlen : (pieces.foldl (readPiece cfg fs) []).length = 0
    · rw [if_pos hlen] at hres; cases hres
    · rw [if_neg hlen] at hres
      obtain rfl : result = pieces.foldl (readPiece cfg fs) [] :=
        (Option.some.inj hres).symm
      refine ⟨fun h0 => hlen (by rw [h0]; rfl), ?_, ?_⟩
      · intro p c hpc
        rcases readFold_mem cfg fs pieces [] (p, c) hpc with h | h
        · simp at h
        · exact h
      · intro p hp c hc
        exact readFold_found cfg fs pieces [] (by simp) p c hc (Or.inl hp)

/-- C3 witness: on an empty filesystem every part is missing, so reading all
parts returns the `None` sentinel. -/
theorem c3_read_omits_missing_witness :
    read_global_cert_bundle ⟨"/certs", "/gcerts"⟩ [] VALID_BUNDLE_KEYS = none :=
  (c3_read_omits_missing ⟨"/certs", "/gcerts"⟩ [] VALID_BUNDLE_KEYS).1.mpr
    (by intro p _; rfl)

/-- C4: `validate_cert_bundle` succeeds (returns nothing) exactly when its
input is a dict whose key set equals `{ca, cert, key}`; on every other input
— `None`, a non-dict, missing keys or extra keys — it raises a `ValueError`. -/
theorem c4_validate_iff (v : PyVal) :
    (validate_cert_bundle v = .ok ()
      ↔ ∃ items, v = .vDict items
          ∧ ∀ k, k ∈ items.map Prod.fst ↔ k ∈ VALID_BUNDLE_KEYS)
    ∧ ((¬ ∃ items, v = .vDict items
          ∧ ∀ k, k ∈ items.map Prod.fst ↔ k ∈ VALID_BUNDLE_KEYS) →
        ∃ msg, validate_cert_bundle v = .error msg) := by
  have main : validate_cert_bundle v = .ok ()
      ↔ ∃ items, v = .vDict items
          ∧ ∀ k, k ∈ items.map Prod.fst ↔ k ∈ VALID_BUNDLE_KEYS := by
    cases v with
    | vNone => simp [validate_cert_bundle]
    | vStr s => simp [validate_cert_bundle]
    | vDict items =>
        simp only [validate_cert_bundle, PyVal.vDict.injEq]
        constructor
        · intro h
          by_cases hm : (VALID_BUNDLE_KEYS.filter
              (fun k => decide (k ∉ items.map Prod.fst))).length > 0
          · rw [if_pos hm] at h; cases h
          · rw [if_neg hm] at h
            by_cases hx : ((items.map Prod.fst).filter
                (fun k => decide (k ∉ VALID_BUNDLE_KEYS))).length > 0
            · rw [if_pos hx] at h; cases h
            · have hmiss := List.filter_eq_nil_iff.mp
                (List.length_eq_zero.mp (Nat.eq_zero_of_not_pos hm))
              have hextra := List.filter_eq_nil_iff.mp
                (List.length_eq_zero.mp (Nat.eq_zero_of_not_pos hx))
              simp only [decide_eq_true_eq, not_not] at hmiss hextra
              exact ⟨items, rfl, fun k => ⟨fun hk => hextra k hk, fun hk => hmiss k hk⟩⟩
        · rintro ⟨its, rfl, hks⟩
          have hm0 : VALID_BUNDLE_KEYS.filter
              (fun k => decide (k ∉ items.map Prod.fst)) = [] := by
            apply List.filter_eq_nil_iff.mpr
            intro a ha
            simp only [decide_eq_true_eq, not_not]
            exact (hks a).mpr ha
          have hx0 : (items.map Prod.fst).filter
              (fun k => decide (k ∉ VALID_BUNDLE_KEYS)) = [] := by
            apply List.filter_eq_nil_iff.mpr
            intro a ha
            simp only [decide_eq_true_eq, not_not]
            exact (hks a).mp ha
          rw [hm0, hx0]
          simp
  refine ⟨main, fun h => ?_⟩
  cases hv : validate_cert_bundle v with
  | error msg => exact ⟨msg, rfl⟩
  | ok u => cases u; exact absurd (main.mp hv) h

/-- C4 witness: a complete bundle validates, and the `None` input fails. -/
theorem c4_validate_iff_witness :
    validate_cert_bundle (.vDict [("ca", "x"), ("cert", "y"), ("key", "z")]) = .ok ()
    ∧ ∃ msg, validate_cert_bundle .vNone = .error msg :=
  ⟨(c4_validate_iff (.vDict [("ca", "x"), ("cert", "y"), ("key", "z")])).1.mpr
      ⟨[("ca", "x"), ("cert", "y"), ("key", "z")], rfl, fun k => Iff.rfl⟩,
   (c4_validate_iff .vNone).2 (by simp)⟩

/-- C7: for a fresh `ProtectedRepoListingFile` whose backing file is absent,
`load` with `allow_missing=True` succeeds and leaves the in-memory map empty;
and `add_protected_repo_path("/a","repo1")`, `save()`, then `load()` on a
fresh instance over the same file reproduces exactly `{"/a": "repo1"}`. -/
theorem c7_protected_listing_round_trip (fn : String) (fs : Dict)
    (h : fsExists fs fn = false) :
    (∃ prf, ProtectedRepoListingFile.load ⟨fn, []⟩ fs true = .ok prf
       ∧ prf.listings = [])
    ∧ (∃ prf2, ProtectedRepoListingFile.load ⟨fn, []⟩
          (ProtectedRepoListingFile.save
            (ProtectedRepoListingFile.add_protected_repo_path ⟨fn, []⟩ "/a" "repo1") fs)
          true
        = .ok prf2 ∧ prf2.listings = [("/a", "repo1")]) := by
  constructor
  · refine ⟨⟨fn, []⟩, ?_, rfl⟩
    rw [ProtectedRepoListingFile.load]
    rw [show (true && !(fsExists fs (⟨fn, []⟩ : ProtectedRepoListingFile).filename))
          = true from by simp [h]]
    simp
  · refine ⟨⟨fn, [("/a", "repo1")]⟩, ?_, rfl⟩
    show ProtectedRepoListingFile.load ⟨fn, []⟩ ((fn, "/a,repo1") :: fs) true
      = .ok ⟨fn, [("/a", "repo1")]⟩
    rw [ProtectedRepoListingFile.load]
    rw [show (true && !(fsExists ((fn, "/a,repo1") :: fs)
          (⟨fn, []⟩ : ProtectedRepoListingFile).filename)) = false from by
        simp [fsExists, assocLookup]]
    rw [show assocLookup ((fn, "/a,repo1") :: fs)
          (⟨fn, []⟩ : ProtectedRepoListingFile).filename = some "/a,repo1" from by
        simp [assocLookup]]
    rfl

/-- C7 witness: the round trip over the empty filesystem. -/
theorem c7_protected_listing_round_trip_witness :
    (∃ prf, ProtectedRepoListingFile.load ⟨"/etc/pulp/protected", []⟩ [] true = .ok prf
       ∧ prf.listings = [])
    ∧ (∃ prf2, ProtectedRepoListingFile.load ⟨"/etc/pulp/protected", []⟩
          (ProtectedRepoListingFile.save
            (ProtectedRepoListingFile.add_protected_repo_path
              ⟨"/etc/pulp/protected", []⟩ "/a" "repo1") [])
          true
        = .ok prf2 ∧ prf2.listings = [("/a", "repo1")]) :=
  c7_protected_listing_round_trip "/etc/pulp/protected" [] (by decide)

/-- C10: when the backing file exists and its content has a line without a
comma (this includes any non-empty content ending in a newline, and the empty
file, whose final split segment is the empty string), `load` raises an
uncaught `IndexError`; only the records of the well-formed lines before the
first malformed line are in the in-memory map at the time of the raise. -/
theorem c10_load_malformed_aborts (prf : ProtectedRepoListingFile) (fs : Dict)
    (allow_missing : Bool) (contents : String)
    (hfile : assocLookup fs prf.filename = some contents)
    (hbad : ∃ line ∈ pySplit contents '\n', (pySplit line ',').length < 2) :
    ProtectedRepoListingFile.load prf fs allow_missing
      = .error ("IndexError: list index out of range",
          ⟨prf.filename,
           ((pySplit contents '\n').takeWhile goodLine).foldl addRecord prf.listings⟩) := by
  have hbad' : ∃ line ∈ pySplit contents '\n', goodLine line = false := by
    rcases hbad with ⟨l, hl, hlen⟩
    refine ⟨l, hl, ?_⟩
    simp only [goodLine, decide_eq_false_iff_not]
    omega
  rw [ProtectedRepoListingFile.load]
  rw [show (allow_missing && !(fsExists fs prf.filename)) = false from by
    simp [fsExists, hfile]]
  rw [if_neg Bool.false_ne_true]
  rw [hfile]
  exact loadLines_error _ prf hbad'

/-- C10 witness: loading `"a,b\nbad"` aborts with an `IndexError`, having
added only the record of the well-formed first line. -/
theorem c10_load_malformed_aborts_witness :
    ProtectedRepoListingFile.load ⟨"/f", []⟩ [("/f", "a,b\nbad")] true
      = .error ("IndexError: list index out of range",
          ⟨"/f",
           ((pySplit "a,b\nbad" '\n').takeWhile goodLine).foldl addRecord []⟩) :=
  c10_load_malformed_aborts ⟨"/f", []⟩ [("/f", "a,b\nbad")] true "a,b\nbad"
    (by decide) (by decide)
